import Mathlib

/-!
Verification development for the session/turn persistence engine and the
answer pipeline of the IKMS multi-agent QA service.

The relational backend (`src/app/services/session_service.py` over the SQLite
schema of `src/app/core/database.py`) is shallowly embedded as pure functions
over an explicit database state `DB`:

  * `sessions` mirrors the `sessions` table (TEXT primary key `id`, `title`,
    `created_at TIMESTAMP DEFAULT CURRENT_TIMESTAMP`);
  * `messages` mirrors the `messages` table (INTEGER PRIMARY KEY AUTOINCREMENT
    `id`, `session_id`, `role`, `content`, `context`, `timestamp`);
  * `nextMsgId` is the autoincrement counter, `now` the clock value SQLite
    substitutes for `CURRENT_TIMESTAMP` (timestamps are modelled in seconds).

Each service operation is translated statement by statement from the Python
source.  `SELECT ... ORDER BY k` is modelled by a stable insertion sort on the
key `k` applied to the filtered rows.
-/

/-- Row of the `sessions` table. -/
structure SessionRow where
  id : String
  title : String
  created_at : Int
deriving DecidableEq, Repr

/-- Row of the `messages` table. -/
structure MessageRow where
  id : Nat
  session_id : String
  role : String
  content : String
  context : Option String
  timestamp : Int
deriving DecidableEq, Repr

/-- Whole database state, plus the autoincrement counter and the clock. -/
structure DB where
  sessions : List SessionRow
  messages : List MessageRow
  nextMsgId : Nat
  now : Int
deriving DecidableEq, Repr

/-- Stable insertion of `a` into `l` with respect to the boolean key order
`le`: `a` is placed before the first element it is `le`-below-or-equal to. -/
def insertOrdered (le : α → α → Bool) (a : α) : List α → List α
  | [] => [a]
  | x :: xs => if le a x then a :: x :: xs else x :: insertOrdered le a xs

/-- Insertion sort with respect to `le`; models SQL `ORDER BY`. -/
def orderBy (le : α → α → Bool) : List α → List α
  | [] => []
  | x :: xs => insertOrdered le x (orderBy le xs)

/-- Key order for `ORDER BY id ASC` on messages. -/
def msgIdLe (a b : MessageRow) : Bool := a.id ≤ b.id

/-- Key order for `ORDER BY timestamp ASC` on messages. -/
def msgTsLe (a b : MessageRow) : Bool := a.timestamp ≤ b.timestamp

/-- Key order for `ORDER BY created_at DESC` on sessions. -/
def sessCreatedDesc (a b : SessionRow) : Bool := b.created_at ≤ a.created_at

/-- Statements the service issues against the backend, as an explicit syntax
so that connection/transaction behaviour (claim on atomicity) can be stated
about the very same statement list that defines `add_turn`. -/
inductive SqlStmt where
  | insertOrIgnoreSession : String → String → SqlStmt
  | updateTitleIfSentinel : String → String → SqlStmt
  | insertMessage : String → String → String → Option String → SqlStmt
deriving DecidableEq, Repr

/-- Effect of `INSERT OR IGNORE INTO sessions (id, title) VALUES (?, ?)`:
a row is inserted only when no row with that primary key exists;
`created_at` defaults to the current time. -/
def applyInsertOrIgnoreSession (sid title : String) (db : DB) : DB :=
  if db.sessions.any (fun s => s.id = sid) then db
  else { db with sessions := db.sessions ++ [⟨sid, title, db.now⟩] }

/-- Effect of `UPDATE sessions SET title = ? WHERE id = ? AND title = 'New Chat'`. -/
def applyUpdateTitleIfSentinel (sid title : String) (db : DB) : DB :=
  { db with sessions := db.sessions.map (fun s =>
      if s.id = sid ∧ s.title = "New Chat" then { s with title := title } else s) }

/-- Effect of `INSERT INTO messages (session_id, role, content, context)`:
the autoincrement key is assigned and bumped, `timestamp` defaults to the
current time, and an omitted `context` is NULL (`none`). -/
def applyInsertMessage (sid role content : String) (context : Option String)
    (db : DB) : DB :=
  { db with
      messages := db.messages ++ [⟨db.nextMsgId, sid, role, content, context, db.now⟩],
      nextMsgId := db.nextMsgId + 1 }

/-- Interpretation of one statement on the database state. -/
def applyStmt (db : DB) : SqlStmt → DB
  | .insertOrIgnoreSession sid title => applyInsertOrIgnoreSession sid title db
  | .updateTitleIfSentinel sid title => applyUpdateTitleIfSentinel sid title db
  | .insertMessage sid role content context =>
      applyInsertMessage sid role content context db

/-- Statement sequence of `SessionService.add_turn`, in source order:
session upsert, conditional title update, user insert, assistant insert. -/
def add_turnStmts (session_id question answer : String)
    (context : Option String) : List SqlStmt :=
  [.insertOrIgnoreSession session_id "New Chat",
   .updateTitleIfSentinel session_id (question.take 50),
   .insertMessage session_id "user" question none,
   .insertMessage session_id "assistant" answer context]

/-- Embeds `SessionService.add_turn` (the committed effect of its four
statements). -/
def add_turn (session_id question answer : String) (context : Option String)
    (db : DB) : DB :=
  (add_turnStmts session_id question answer context).foldl applyStmt db

/-- Embeds `SessionService.create_session`; the fresh UUID is taken as the
argument `session_id` since its generation is external randomness. -/
def create_session (session_id : String) (db : DB) : DB :=
  { db with sessions := db.sessions ++ [⟨session_id, "New Chat", db.now⟩] }

/-- Rows returned by `SELECT * FROM messages WHERE session_id = ? ORDER BY id ASC`. -/
def rowsByIdFor (session_id : String) (db : DB) : List MessageRow :=
  orderBy msgIdLe (db.messages.filter (fun m => m.session_id = session_id))

/-- Reconstructed turn, as built by `get_history_formatted`. -/
structure Turn where
  question : String
  answer : String
  context : Option String
  timestamp : Int
  turn : Nat
deriving DecidableEq, Repr

/-- The partially built `current_turn` dict of `get_history_formatted` after a
`user` row has been seen. -/
structure PendingTurn where
  question : String
  timestamp : Int
  turn : Nat
deriving DecidableEq, Repr

/-- Loop body of `get_history_formatted`, folded over the ordered rows:
`cur` is the pending turn (`{}` is `none`), `idx` the running `turn_index`. -/
def reconstructGo : List MessageRow → Option PendingTurn → Nat → List Turn
  | [], _, _ => []
  | r :: rs, cur, idx =>
    if r.role = "user" then
      reconstructGo rs (some ⟨r.content, r.timestamp, idx⟩) idx
    else if r.role = "assistant" then
      match cur with
      | some p => ⟨p.question, r.content, r.context, p.timestamp, p.turn⟩ ::
          reconstructGo rs none (idx + 1)
      | none => reconstructGo rs none idx
    else
      reconstructGo rs cur idx

/-- Turn reconstruction from an ordered message sequence (the loop of
`get_history_formatted` starting from `current_turn = {}`, `turn_index = 1`). -/
def reconstructTurns (rows : List MessageRow) : List Turn :=
  reconstructGo rows none 1

/-- Embeds `SessionService.get_history_formatted`. -/
def get_history_formatted (session_id : String) (db : DB) : List Turn :=
  reconstructTurns (rowsByIdFor session_id db)

/-- Raw per-message entry whose shape the shadowed `get_history` definition
(lines 8-30 of `session_service.py`) builds its dict literal in: question or
answer left empty depending on the role. -/
structure RawEntry where
  question : String
  answer : String
  context : Option String
  timestamp : Int
deriving DecidableEq, Repr

/-- Runtime error raised by the embedded Python code; `nameError x` is
Python raising a NameError because the name `x` is unbound. -/
inductive PyError where
  | nameError : String → PyError
deriving DecidableEq, Repr

/-- Embeds the shadowed `SessionService.get_history` (lines 8-30) faithfully:
the `return [...]` at lines 16-30 is a one-element list literal with no
for-clause (comments stand where it would be), so its expressions reference
the unbound name `row` and every call raises a NameError instead of
returning raw per-message entries. -/
def get_history_shadowed (session_id : String) (db : DB) :
    Except PyError (List RawEntry) :=
  Except.error (PyError.nameError "row")

/-- Embeds the class-body alias `get_history = get_history_formatted`
(line 146 of `session_service.py`): the public `get_history` is the
formatted reconstruction, not the shadowed raw definition. -/
def get_history : String → DB → List Turn := get_history_formatted

/-- Embeds `SessionService.list_sessions`
(`SELECT * FROM sessions ORDER BY created_at DESC`). -/
def list_sessions (db : DB) : List SessionRow :=
  orderBy sessCreatedDesc db.sessions

/-- Embeds `SessionService.delete_session`: messages first, then the session row. -/
def delete_session (session_id : String) (db : DB) : DB :=
  { db with
      messages := db.messages.filter (fun m => ¬ m.session_id = session_id),
      sessions := db.sessions.filter (fun s => ¬ s.id = session_id) }

/-- Cutoff instant `datetime('now', '-{days} days')`, in seconds. -/
def cleanupCutoff (days : Nat) (db : DB) : Int := db.now - (days : Int) * 86400

/-- Ids selected by `SELECT id FROM sessions WHERE created_at < cutoff`. -/
def oldSessionIds (days : Nat) (db : DB) : List String :=
  (db.sessions.filter (fun s => s.created_at < cleanupCutoff days db)).map
    (fun s => s.id)

/-- Embeds `SessionService.cleanup_old_sessions`: deletes messages whose
session id is among the old sessions, then the old session rows. -/
def cleanup_old_sessions (days : Nat) (db : DB) : DB :=
  { db with
      messages := db.messages.filter
        (fun m => ¬ m.session_id ∈ oldSessionIds days db),
      sessions := db.sessions.filter
        (fun s => ¬ s.created_at < cleanupCutoff days db) }

/-- One-step evolution of the `(current_turn, turn_index)` loop state of
`get_history_formatted`, mirroring `reconstructGo` without the output. -/
def stepState (st : Option PendingTurn × Nat) (r : MessageRow) :
    Option PendingTurn × Nat :=
  if r.role = "user" then (some ⟨r.content, r.timestamp, st.2⟩, st.2)
  else if r.role = "assistant" then
    match st.1 with
    | some _ => (none, st.2 + 1)
    | none => (none, st.2)
  else st

/-- Convenience constructor for a `user` row. -/
def mkUser (id : Nat) (sid q : String) (ts : Int) : MessageRow :=
  ⟨id, sid, "user", q, none, ts⟩

/-- Convenience constructor for an `assistant` row. -/
def mkAssistant (id : Nat) (sid a : String) (c : Option String) (ts : Int) :
    MessageRow :=
  ⟨id, sid, "assistant", a, c, ts⟩

/-- Message rows produced by a run of `add_turn` calls with payloads `ts`
(question, answer, context), started at autoincrement key `nid`: a user row
then an assistant row per call. -/
def pairRows (sid : String) (ts : List (String × String × Option String))
    (nid : Nat) (now : Int) : List MessageRow :=
  match ts with
  | [] => []
  | (q, a, c) :: rest =>
      mkUser nid sid q now :: mkAssistant (nid + 1) sid a c now ::
        pairRows sid rest (nid + 2) now

/-- Sequence of `add_turn` calls on one session, in order. -/
def addTurns (sid : String) (ts : List (String × String × Option String))
    (db : DB) : DB :=
  ts.foldl (fun d t => add_turn sid t.1 t.2.1 t.2.2 d) db

/-- Expected history after recording `ts` on a fresh session: one turn per
payload, `turn` counting up from `idx`, timestamps all equal to `now`. -/
def expectedTurns (ts : List (String × String × Option String)) (idx : Nat)
    (now : Int) : List Turn :=
  match ts with
  | [] => []
  | (q, a, c) :: rest => ⟨q, a, c, now, idx⟩ :: expectedTurns rest (idx + 1) now

/-- Title of the session as an observer would read it
(`SELECT title FROM sessions WHERE id = ?`, first matching row). -/
def titleOf (session_id : String) (db : DB) : Option String :=
  (db.sessions.find? (fun s => s.id = session_id)).map (fun s => s.title)

/-- Connection state of the single `sqlite3` connection `add_turn` uses:
`persisted` is the durable database, `pending` the in-transaction view.
Statements executed before `commit` only change `pending`; per
`get_db_connection`, closing the connection without committing discards the
pending changes. -/
structure Conn where
  persisted : DB
  pending : DB
deriving DecidableEq, Repr

/-- Opening a connection on the durable state. -/
def openConn (db : DB) : Conn := ⟨db, db⟩

/-- Executing one statement inside the transaction. -/
def execStmt (c : Conn) (st : SqlStmt) : Conn :=
  { c with pending := applyStmt c.pending st }

/-- The `conn.commit()` at the end of `add_turn`. -/
def commitConn (c : Conn) : Conn := { c with persisted := c.pending }

/-- The `conn.close()` in `get_db_connection`'s `finally`: the durable state
is whatever was last committed. -/
def closeConn (c : Conn) : DB := c.persisted

/-- Durable state after an `add_turn` call whose `k`-th step raises
(0-based; `k = 4` means all four statements ran but `conn.commit()` raised):
the statements before step `k` execute on the connection, then the context
manager closes it without a commit. -/
def add_turnFailingAt (k : Nat) (sid q a : String) (c : Option String)
    (db : DB) : DB :=
  closeConn (((add_turnStmts sid q a c).take k).foldl execStmt (openConn db))

/-- Durable state after a successful `add_turn` call run through the
connection model: all four statements, then commit, then close. -/
def add_turnCommitted (sid q a : String) (c : Option String) (db : DB) : DB :=
  closeConn (commitConn ((add_turnStmts sid q a c).foldl execStmt (openConn db)))

/-- The reserved self-identification answer fixed by
`SUMMARIZATION_SYSTEM_PROMPT` and accepted verbatim by
`VERIFICATION_SYSTEM_PROMPT` in `prompts.py`. -/
def SELF_INTRO_ANSWER : String :=
  "I am an intelligent assistant designed to answer questions about the reffer vector databases."

/-- Modelled from the spec: the Verification stage of the pipeline
(`graph.py`, not present under `src/`; only its prompt,
`VERIFICATION_SYSTEM_PROMPT`, is). A draft answer is abstracted as the list
of its factual claims, the context as the list of claims it supports.
Per the spec, verification "checks every factual claim in the draft against
the context; removes or corrects unsupported claims; if the draft equals the
reserved self-identification answer, it passes through unchanged". -/
def verifyAnswer (draft context : List String) : List String :=
  if draft = [SELF_INTRO_ANSWER] then draft
  else draft.filter (fun cl => cl ∈ context)

/-- Empty database with autoincrement counter at 1 (SQLite's first rowid)
and clock at 0; used by concrete witnesses. -/
def dbEmpty : DB := ⟨[], [], 1, 0⟩

/-- Database holding a single unanswered user message; distinguishes the raw
(shadowed) history from the formatted one. -/
def dbOneUser : DB :=
  ⟨[⟨"s", "New Chat", 0⟩], [mkUser 1 "s" "q1" 0], 2, 0⟩

/-- Database with one old and one recent session, each with one message;
used by the retention-sweep witness (clock at 10 days). -/
def dbRetention : DB :=
  ⟨[⟨"old", "Old chat", 0⟩, ⟨"new", "New chat", 700000⟩],
   [mkUser 1 "old" "q-old" 0, mkUser 2 "new" "q-new" 700000], 3, 864000⟩

theorem mem_insertOrdered (le : α → α → Bool) (a x : α) (l : List α) :
    x ∈ insertOrdered le a l ↔ x = a ∨ x ∈ l := by
  induction l with
  | nil => simp [insertOrdered]
  | cons y ys ih =>
      simp only [insertOrdered]
      split
      · simp [List.mem_cons]
      · simp [List.mem_cons, ih]
        tauto

theorem mem_orderBy (le : α → α → Bool) (x : α) (l : List α) :
    x ∈ orderBy le l ↔ x ∈ l := by
  induction l with
  | nil => simp [orderBy]
  | cons y ys ih =>
      simp [orderBy, mem_insertOrdered, ih, List.mem_cons]

theorem orderBy_eq_self_of_chain (le : α → α → Bool) (l : List α)
    (h : List.Chain' (fun a b => le a b = true) l) : orderBy le l = l := by
  induction l with
  | nil => rfl
  | cons y ys ih =>
      have hys : orderBy le ys = ys := ih h.tail
      simp only [orderBy, hys]
      cases ys with
      | nil => rfl
      | cons z zs =>
          have hyz : le y z = true := List.chain'_cons.mp h |>.1
          simp [insertOrdered, hyz]

theorem applyInsertOrIgnoreSession_messages (sid title : String) (db : DB) :
    (applyInsertOrIgnoreSession sid title db).messages = db.messages := by
  unfold applyInsertOrIgnoreSession
  split <;> rfl

theorem applyInsertOrIgnoreSession_nextMsgId (sid title : String) (db : DB) :
    (applyInsertOrIgnoreSession sid title db).nextMsgId = db.nextMsgId := by
  unfold applyInsertOrIgnoreSession
  split <;> rfl

theorem applyInsertOrIgnoreSession_now (sid title : String) (db : DB) :
    (applyInsertOrIgnoreSession sid title db).now = db.now := by
  unfold applyInsertOrIgnoreSession
  split <;> rfl

theorem add_turn_messages (sid q a : String) (c : Option String) (db : DB) :
    (add_turn sid q a c db).messages =
      db.messages ++ [mkUser db.nextMsgId sid q db.now,
                      mkAssistant (db.nextMsgId + 1) sid a c db.now] := by
  simp [add_turn, add_turnStmts, applyStmt, applyInsertMessage,
    applyUpdateTitleIfSentinel, applyInsertOrIgnoreSession_messages,
    applyInsertOrIgnoreSession_nextMsgId, applyInsertOrIgnoreSession_now,
    mkUser, mkAssistant]

theorem add_turn_nextMsgId (sid q a : String) (c : Option String) (db : DB) :
    (add_turn sid q a c db).nextMsgId = db.nextMsgId + 2 := by
  simp [add_turn, add_turnStmts, applyStmt, applyInsertMessage,
    applyUpdateTitleIfSentinel, applyInsertOrIgnoreSession_nextMsgId]

theorem add_turn_now (sid q a : String) (c : Option String) (db : DB) :
    (add_turn sid q a c db).now = db.now := by
  simp [add_turn, add_turnStmts, applyStmt, applyInsertMessage,
    applyUpdateTitleIfSentinel, applyInsertOrIgnoreSession_now]

theorem addTurns_shape (sid : String) (ts : List (String × String × Option String)) :
    ∀ db : DB,
      (addTurns sid ts db).messages =
          db.messages ++ pairRows sid ts db.nextMsgId db.now ∧
        (addTurns sid ts db).nextMsgId = db.nextMsgId + 2 * ts.length ∧
        (addTurns sid ts db).now = db.now := by
  induction ts with
  | nil => intro db; simp [addTurns, pairRows]
  | cons t rest ih =>
      intro db
      obtain ⟨q, a, c⟩ := t
      have h := ih (add_turn sid q a c db)
      simp only [addTurns, List.foldl_cons] at h ⊢
      rw [h.1, h.2.1, h.2.2, add_turn_messages, add_turn_nextMsgId, add_turn_now]
      refine ⟨by simp [pairRows, mkUser, mkAssistant], ?_, rfl⟩
      simp only [List.length_cons]
      ring

theorem pairRows_filter_self (sid : String)
    (ts : List (String × String × Option String)) :
    ∀ nid : Nat, ∀ now : Int,
      (pairRows sid ts nid now).filter (fun m => m.session_id = sid) =
        pairRows sid ts nid now := by
  induction ts with
  | nil => intro nid now; rfl
  | cons t rest ih =>
      intro nid now
      obtain ⟨q, a, c⟩ := t
      simp [pairRows, mkUser, mkAssistant, ih]

theorem pairRows_id_lower (sid : String)
    (ts : List (String × String × Option String)) :
    ∀ nid : Nat, ∀ now : Int, ∀ m ∈ pairRows sid ts nid now, nid ≤ m.id := by
  induction ts with
  | nil => intro nid now m hm; simp [pairRows] at hm
  | cons t rest ih =>
      intro nid now m hm
      obtain ⟨q, a, c⟩ := t
      simp only [pairRows, List.mem_cons] at hm
      rcases hm with h | h | h
      · simp [h, mkUser]
      · simp [h, mkAssistant]
      · have := ih (nid + 2) now m h
        omega

theorem pairRows_chain (sid : String)
    (ts : List (String × String × Option String)) :
    ∀ nid : Nat, ∀ now : Int,
      List.Chain' (fun a b => msgIdLe a b = true) (pairRows sid ts nid now) := by
  induction ts with
  | nil => intro nid now; simp [pairRows]
  | cons t rest ih =>
      intro nid now
      obtain ⟨q, a, c⟩ := t
      simp only [pairRows]
      refine List.chain'_cons.mpr ⟨by simp [msgIdLe, mkUser, mkAssistant], ?_⟩
      refine List.Chain'.cons' (ih (nid + 2) now) ?_
      intro h hh
      have hmem : h ∈ pairRows sid rest (nid + 2) now := List.mem_of_mem_head? hh
      have := pairRows_id_lower sid rest (nid + 2) now h hmem
      simp [msgIdLe, mkAssistant]
      omega

theorem reconstructGo_pairRows (sid : String)
    (ts : List (String × String × Option String)) :
    ∀ nid idx : Nat, ∀ now : Int,
      reconstructGo (pairRows sid ts nid now) none idx =
        expectedTurns ts idx now := by
  induction ts with
  | nil => intro nid idx now; rfl
  | cons t rest ih =>
      intro nid idx now
      obtain ⟨q, a, c⟩ := t
      simp [pairRows, reconstructGo, expectedTurns, mkUser, mkAssistant, ih]

theorem reconstructGo_append (xs ys : List MessageRow) :
    ∀ cur idx,
      reconstructGo (xs ++ ys) cur idx =
        reconstructGo xs cur idx ++
          reconstructGo ys (xs.foldl stepState (cur, idx)).1
            (xs.foldl stepState (cur, idx)).2 := by
  induction xs with
  | nil => intro cur idx; rfl
  | cons r rs ih =>
      intro cur idx
      by_cases hu : r.role = "user"
      · simp [reconstructGo, stepState, hu, ih]
      · by_cases ha : r.role = "assistant"
        · cases cur with
          | some p => simp [reconstructGo, stepState, hu, ha, ih]
          | none => simp [reconstructGo, stepState, hu, ha, ih]
        · simp [reconstructGo, stepState, hu, ha, ih]

theorem reconstructGo_congr_of_noAssistant (suf : List MessageRow)
    (H : ∀ m ∈ suf.takeWhile (fun m => ¬ m.role = "user"),
        ¬ m.role = "assistant") :
    ∀ cur cur' : Option PendingTurn, ∀ idx : Nat,
      reconstructGo suf cur idx = reconstructGo suf cur' idx := by
  induction suf with
  | nil => intro cur cur' idx; rfl
  | cons r rs ih =>
      intro cur cur' idx
      by_cases hu : r.role = "user"
      · simp [reconstructGo, hu]
      · have hr : r ∈ (r :: rs).takeWhile
            (fun m => (¬ m.role = "user" : Bool)) := by
          simp [List.takeWhile_cons, hu]
        have ha : ¬ r.role = "assistant" := H r hr
        have Hrs : ∀ m ∈ rs.takeWhile (fun m => ¬ m.role = "user"),
            ¬ m.role = "assistant" := by
          intro m hm
          refine H m ?_
          rw [List.takeWhile_cons, if_pos (by simp [hu])]
          exact List.mem_cons_of_mem r hm
        simp only [reconstructGo, if_neg hu, if_neg ha]
        exact ih Hrs cur cur' idx

theorem add_turn_sessions (sid q a : String) (c : Option String) (db : DB) :
    (add_turn sid q a c db).sessions =
      (applyInsertOrIgnoreSession sid "New Chat" db).sessions.map (fun s =>
        if s.id = sid ∧ s.title = "New Chat" then { s with title := q.take 50 }
        else s) := by
  simp [add_turn, add_turnStmts, applyStmt, applyInsertMessage,
    applyUpdateTitleIfSentinel]

theorem add_turn_sessions_fresh (sid q a : String) (c : Option String) (db : DB)
    (hfresh : ∀ s ∈ db.sessions, s.id ≠ sid) :
    (add_turn sid q a c db).sessions =
      db.sessions ++ [⟨sid, q.take 50, db.now⟩] := by
  rw [add_turn_sessions]
  have hins : (applyInsertOrIgnoreSession sid "New Chat" db).sessions =
      db.sessions ++ [⟨sid, "New Chat", db.now⟩] := by
    unfold applyInsertOrIgnoreSession
    rw [if_neg]
    simp only [List.any_eq_true, decide_eq_true_eq]
    rintro ⟨s, hs, hid⟩
    exact hfresh s hs hid
  rw [hins, List.map_append]
  have h1 : db.sessions.map (fun s =>
      if s.id = sid ∧ s.title = "New Chat" then { s with title := q.take 50 }
      else s) = db.sessions := by
    calc db.sessions.map (fun s =>
          if s.id = sid ∧ s.title = "New Chat" then { s with title := q.take 50 }
          else s)
        = db.sessions.map id := by
          refine List.map_congr_left ?_
          intro s hs
          simp only [id_eq]
          rw [if_neg]
          rintro ⟨hid, _⟩
          exact hfresh s hs hid
      _ = db.sessions := List.map_id db.sessions
  rw [h1]
  simp

theorem titleOf_add_turn_fresh (sid q a : String) (c : Option String) (db : DB)
    (hfresh : ∀ s ∈ db.sessions, s.id ≠ sid) :
    titleOf sid (add_turn sid q a c db) = some (q.take 50) := by
  unfold titleOf
  rw [add_turn_sessions_fresh sid q a c db hfresh, List.find?_append]
  have hnone : db.sessions.find? (fun s => s.id = sid) = none := by
    refine List.find?_eq_none.mpr ?_
    intro s hs
    simp only [decide_eq_true_eq]
    exact hfresh s hs
  rw [hnone]
  simp [List.find?]

theorem titleOf_add_turn_preserved (sid q a : String) (c : Option String)
    (db : DB) (t : String) (h : titleOf sid db = some t)
    (ht : t ≠ "New Chat") :
    titleOf sid (add_turn sid q a c db) = some t := by
  obtain ⟨s0, hs0, hst⟩ : ∃ s0, db.sessions.find? (fun s => s.id = sid) = some s0
      ∧ s0.title = t := by
    unfold titleOf at h
    exact Option.map_eq_some'.mp h
  have hs0p : s0.id = sid := by
    have := List.find?_some hs0
    simpa using this
  have hs0mem : s0 ∈ db.sessions := List.mem_of_find?_eq_some hs0
  unfold titleOf
  rw [add_turn_sessions]
  have hins : applyInsertOrIgnoreSession sid "New Chat" db = db := by
    unfold applyInsertOrIgnoreSession
    rw [if_pos]
    refine List.any_eq_true.mpr ⟨s0, hs0mem, by simp [hs0p]⟩
  rw [hins, List.find?_map]
  have hid : ∀ s : SessionRow, ((fun s =>
      if s.id = sid ∧ s.title = "New Chat" then { s with title := q.take 50 }
      else s) s).id = s.id := by
    intro s
    dsimp only
    split <;> rfl
  have hcomp : ((fun s : SessionRow => (decide (s.id = sid))) ∘ (fun s =>
      if s.id = sid ∧ s.title = "New Chat" then { s with title := q.take 50 }
      else s)) = (fun s : SessionRow => decide (s.id = sid)) := by
    funext s
    simp only [Function.comp_apply, hid]
  rw [hcomp, hs0]
  have hfix : (if s0.id = sid ∧ s0.title = "New Chat"
      then { s0 with title := q.take 50 } else s0) = s0 := by
    rw [if_neg]
    rintro ⟨_, htit⟩
    exact ht (hst ▸ htit)
  rw [Option.map_some', hfix, Option.map_some', hst]

theorem titleOf_addTurns_preserved (sid : String)
    (ts : List (String × String × Option String)) :
    ∀ db : DB, ∀ t : String, titleOf sid db = some t → t ≠ "New Chat" →
      titleOf sid (addTurns sid ts db) = some t := by
  induction ts with
  | nil => intro db t h _; exact h
  | cons p rest ih =>
      intro db t h ht
      obtain ⟨q, a, c⟩ := p
      simp only [addTurns, List.foldl_cons]
      exact ih (add_turn sid q a c db) t
        (titleOf_add_turn_preserved sid q a c db t h ht) ht

theorem expectedTurns_map_turn (ts : List (String × String × Option String)) :
    ∀ idx : Nat, ∀ now : Int,
      (expectedTurns ts idx now).map (fun t => t.turn) =
        List.range' idx ts.length := by
  induction ts with
  | nil => intro idx now; rfl
  | cons p rest ih =>
      intro idx now
      obtain ⟨q, a, c⟩ := p
      simp only [expectedTurns, List.map_cons, List.length_cons,
        List.range'_succ, ih]

theorem filter_of_filter_sub (p q : α → Bool) (l : List α)
    (h : ∀ a ∈ l, p a = true → q a = true) :
    (l.filter q).filter p = l.filter p := by
  rw [List.filter_filter]
  refine List.filter_congr ?_
  intro a ha
  by_cases hp : p a = true
  · rw [hp, h a ha hp]
    rfl
  · simp only [Bool.not_eq_true] at hp
    rw [hp]
    rfl

theorem foldl_execStmt_persisted (l : List SqlStmt) :
    ∀ c : Conn, (l.foldl execStmt c).persisted = c.persisted := by
  induction l with
  | nil => intro c; rfl
  | cons st rest ih => intro c; rw [List.foldl_cons, ih]; rfl

theorem foldl_execStmt_pending (l : List SqlStmt) :
    ∀ c : Conn, (l.foldl execStmt c).pending = l.foldl applyStmt c.pending := by
  induction l with
  | nil => intro c; rfl
  | cons st rest ih => intro c; rw [List.foldl_cons, ih]; rfl

/-- C1. Round trip: for a session id fresh in the store (as returned by
`create_session`), calling `add_turn(id, q, a, c)` and then `get_history(id)`
yields exactly one `Turn` with `question = q`, `answer = a`, `context = c`. -/
theorem roundtrip_single_turn (db : DB) (sid q a : String) (c : Option String)
    (hmsg : db.messages.filter (fun m => m.session_id = sid) = []) :
    get_history sid (add_turn sid q a c (create_session sid db)) =
      [⟨q, a, c, db.now, 1⟩] := by
  have hm : (add_turn sid q a c (create_session sid db)).messages =
      db.messages ++ pairRows sid [(q, a, c)] db.nextMsgId db.now := by
    rw [add_turn_messages]
    simp [create_session, pairRows]
  unfold get_history get_history_formatted rowsByIdFor reconstructTurns
  rw [hm, List.filter_append, hmsg, pairRows_filter_self, List.nil_append,
    orderBy_eq_self_of_chain _ _ (pairRows_chain sid [(q, a, c)] db.nextMsgId db.now),
    reconstructGo_pairRows]
  rfl

/-- C1 witness: the spec's example scenario on the empty store. -/
theorem roundtrip_single_turn_witness :
    get_history "s1" (add_turn "s1" "What is a vector database?"
        "A vector database stores embeddings..."
        (some "Vector DBs index embeddings for similarity search.")
        (create_session "s1" dbEmpty)) =
      [⟨"What is a vector database?", "A vector database stores embeddings...",
        some "Vector DBs index embeddings for similarity search.", 0, 1⟩] :=
  roundtrip_single_turn dbEmpty "s1" "What is a vector database?"
    "A vector database stores embeddings..."
    (some "Vector DBs index embeddings for similarity search.") rfl

/-- C2. Ordering: recording any sequence of turns on a fresh session returns
them from `get_history` in recording order with `turn_index` strictly
increasing from 1, even though every message carries the same timestamp —
the query orders by the autoincrement insertion key, not the timestamp. -/
theorem ordering_turns (db : DB) (sid : String)
    (ts : List (String × String × Option String))
    (hmsg : db.messages.filter (fun m => m.session_id = sid) = []) :
    get_history sid (addTurns sid ts db) = expectedTurns ts 1 db.now ∧
      (get_history sid (addTurns sid ts db)).map (fun t => t.turn) =
        List.range' 1 ts.length := by
  have h := addTurns_shape sid ts db
  have hmain : get_history sid (addTurns sid ts db) = expectedTurns ts 1 db.now := by
    unfold get_history get_history_formatted rowsByIdFor reconstructTurns
    rw [h.1, List.filter_append, hmsg, pairRows_filter_self, List.nil_append,
      orderBy_eq_self_of_chain _ _ (pairRows_chain sid ts db.nextMsgId db.now),
      reconstructGo_pairRows]
  exact ⟨hmain, by rw [hmain, expectedTurns_map_turn]⟩

/-- C2 witness: two turns recorded on the empty store, timestamps colliding. -/
theorem ordering_turns_witness :
    get_history "s" (addTurns "s" [("q1", "a1", some "c1"), ("q2", "a2", none)]
        dbEmpty) =
      expectedTurns [("q1", "a1", some "c1"), ("q2", "a2", none)] 1 0 ∧
      (get_history "s" (addTurns "s" [("q1", "a1", some "c1"), ("q2", "a2", none)]
          dbEmpty)).map (fun t => t.turn) = List.range' 1 2 :=
  ordering_turns dbEmpty "s" [("q1", "a1", some "c1"), ("q2", "a2", none)] rfl

/-- C3. Orphan handling: a user message with no assistant message before the
next user message (or the end of the sequence) contributes no turn, and an
assistant message arriving with no unpaired user message pending contributes
no turn; the reconstruction is a total function, so neither case errors. -/
theorem orphan_messages_produce_no_turn (sid : String)
    (pre suf : List MessageRow) (id1 id2 : Nat) (q a : String)
    (c : Option String) (t1 t2 : Int) :
    ((∀ m ∈ suf.takeWhile (fun m => ¬ m.role = "user"), ¬ m.role = "assistant") →
        reconstructTurns (pre ++ mkUser id1 sid q t1 :: suf) =
          reconstructTurns (pre ++ suf)) ∧
      ((pre.foldl stepState (none, 1)).1 = none →
        reconstructTurns (pre ++ mkAssistant id2 sid a c t2 :: suf) =
          reconstructTurns (pre ++ suf)) := by
  constructor
  · intro H
    unfold reconstructTurns
    rw [reconstructGo_append, reconstructGo_append]
    congr 1
    have hu : reconstructGo (mkUser id1 sid q t1 :: suf)
        (pre.foldl stepState (none, 1)).1 (pre.foldl stepState (none, 1)).2 =
        reconstructGo suf (some ⟨q, t1, (pre.foldl stepState (none, 1)).2⟩)
          (pre.foldl stepState (none, 1)).2 := by
      simp [reconstructGo, mkUser]
    rw [hu]
    exact reconstructGo_congr_of_noAssistant suf H _ _ _
  · intro h0
    unfold reconstructTurns
    rw [reconstructGo_append, reconstructGo_append]
    congr 1
    rw [h0]
    simp [reconstructGo, mkAssistant]

/-- C3 witness: a lone user message and a lone assistant message each
reconstruct to the same (empty) history as the sequence without them. -/
theorem orphan_messages_witness :
    reconstructTurns [mkUser 1 "s" "q1" 0] = reconstructTurns [] ∧
      reconstructTurns [mkAssistant 1 "s" "a1" none 0] = reconstructTurns [] :=
  ⟨(orphan_messages_produce_no_turn "s" [] [] 1 1 "q1" "a1" none 0 0).1
      (by decide),
   (orphan_messages_produce_no_turn "s" [] [] 1 1 "q1" "a1" none 0 0).2 rfl⟩

set_option maxRecDepth 10000 in
/-- C4 counterexample: when the first question's 50-character prefix is
exactly the sentinel "New Chat", the first `add_turn` leaves the title equal
to the sentinel, and a later `add_turn` changes the title again — refuting
"for every later add_turn call on the same session the title is unchanged". -/
theorem title_changed_by_later_turn :
    titleOf "s" (add_turn "s" "New Chat" "a1" none (create_session "s" dbEmpty)) =
        some "New Chat" ∧
      titleOf "s" (add_turn "s" "Hello" "a2" none
          (add_turn "s" "New Chat" "a1" none (create_session "s" dbEmpty))) =
        some "Hello" ∧
      ("Hello" : String) ≠ "New Chat" :=
  ⟨rfl, rfl, by decide⟩

/-- C4 amended: the first `add_turn` on a new session sets the title to the
first 50 characters of its question, and — provided that prefix is not the
sentinel "New Chat" itself — every later `add_turn` on the session leaves the
title unchanged. -/
theorem title_set_once_amended (db : DB) (sid q1 a1 : String)
    (c1 : Option String) (hfresh : ∀ s ∈ db.sessions, s.id ≠ sid)
    (hq : q1.take 50 ≠ "New Chat") :
    titleOf sid (add_turn sid q1 a1 c1 db) = some (q1.take 50) ∧
      ∀ ts, titleOf sid (addTurns sid ts (add_turn sid q1 a1 c1 db)) =
        some (q1.take 50) := by
  have h1 := titleOf_add_turn_fresh sid q1 a1 c1 db hfresh
  exact ⟨h1, fun ts => titleOf_addTurns_preserved sid ts _ _ h1 hq⟩

set_option maxRecDepth 10000 in
/-- C4 witness: a first question "Hi" fixes the title; a later turn with a
different question leaves it fixed. -/
theorem title_set_once_witness :
    titleOf "s" (add_turn "s" "Hi" "a1" none dbEmpty) = some ("Hi".take 50) ∧
      titleOf "s" (addTurns "s" [("q2", "a2", none)]
          (add_turn "s" "Hi" "a1" none dbEmpty)) = some ("Hi".take 50) := by
  have h := title_set_once_amended dbEmpty "s" "Hi" "a1" none
    (by intro s hs; simp [dbEmpty] at hs)
    (by rw [show ("Hi".take 50 : String) = "Hi" from rfl]; decide)
  exact ⟨h.1, h.2 [("q2", "a2", none)]⟩

/-- C5. Deletion postcondition: after `delete_session(id)`, `get_history(id)`
is empty and `list_sessions()` contains no session with that id. -/
theorem deletion_postcondition (db : DB) (sid : String) :
    get_history sid (delete_session sid db) = [] ∧
      ∀ s ∈ list_sessions (delete_session sid db), s.id ≠ sid := by
  constructor
  · unfold get_history get_history_formatted rowsByIdFor reconstructTurns
      delete_session
    have hnil : ((db.messages.filter (fun m => ¬ m.session_id = sid)).filter
        (fun m => m.session_id = sid)) = [] := by
      refine List.filter_eq_nil_iff.mpr ?_
      intro m hm
      have h2 := (List.mem_filter.mp hm).2
      simp only [decide_eq_true_eq] at h2 ⊢
      simp [h2]
    rw [hnil]
    rfl
  · intro s hs
    unfold list_sessions delete_session at hs
    have hmem := (mem_orderBy _ _ _).mp hs
    have h2 := (List.mem_filter.mp hmem).2
    simpa using h2

/-- C6. Soft NotFound: for a session id absent from the store,
`get_history` returns the empty sequence (no exception), `delete_session` is
a no-op that leaves the store unchanged, and `delete_session` is idempotent
on every store. -/
theorem unknown_session_soft (db : DB) (sid : String)
    (hsess : ∀ s ∈ db.sessions, s.id ≠ sid)
    (hmsg : ∀ m ∈ db.messages, m.session_id ≠ sid) :
    get_history sid db = [] ∧ delete_session sid db = db ∧
      ∀ d : DB, delete_session sid (delete_session sid d) =
        delete_session sid d := by
  refine ⟨?_, ?_, ?_⟩
  · unfold get_history get_history_formatted rowsByIdFor reconstructTurns
    have hnil : db.messages.filter (fun m => m.session_id = sid) = [] := by
      refine List.filter_eq_nil_iff.mpr ?_
      intro m hm
      simpa using hmsg m hm
    rw [hnil]
    rfl
  · unfold delete_session
    have h1 : db.messages.filter (fun m => ¬ m.session_id = sid) =
        db.messages :=
      List.filter_eq_self.mpr (fun m hm => by simpa using hmsg m hm)
    have h2 : db.sessions.filter (fun s => ¬ s.id = sid) = db.sessions :=
      List.filter_eq_self.mpr (fun s hs => by simpa using hsess s hs)
    rw [h1, h2]
  · intro d
    unfold delete_session
    have h1 : (d.messages.filter (fun m => ¬ m.session_id = sid)).filter
        (fun m => ¬ m.session_id = sid) =
        d.messages.filter (fun m => ¬ m.session_id = sid) :=
      List.filter_eq_self.mpr (fun m hm => (List.mem_filter.mp hm).2)
    have h2 : (d.sessions.filter (fun s => ¬ s.id = sid)).filter
        (fun s => ¬ s.id = sid) =
        d.sessions.filter (fun s => ¬ s.id = sid) :=
      List.filter_eq_self.mpr (fun s hs => (List.mem_filter.mp hs).2)
    simp only [h1, h2]

/-- C6 witness: an id unknown to a nonempty store. -/
theorem unknown_session_soft_witness :
    get_history "ghost" dbOneUser = [] ∧
      delete_session "ghost" dbOneUser = dbOneUser ∧
      ∀ d : DB, delete_session "ghost" (delete_session "ghost" d) =
        delete_session "ghost" d :=
  unknown_session_soft dbOneUser "ghost" (by decide) (by decide)

/-- C7. Retention sweep: `cleanup_old_sessions(days)` removes every session
whose `created_at` is older than now minus `days` together with all of its
messages, and keeps every newer session with its messages untouched (session
ids are unique, as the table's primary key guarantees). -/
theorem retention_sweep (db : DB) (days : Nat)
    (hnd : (db.sessions.map (fun s => s.id)).Nodup) :
    (∀ s ∈ db.sessions, s.created_at < cleanupCutoff days db →
        (∀ s' ∈ (cleanup_old_sessions days db).sessions, s'.id ≠ s.id) ∧
          ∀ m ∈ (cleanup_old_sessions days db).messages, m.session_id ≠ s.id) ∧
      ∀ s ∈ db.sessions, ¬ s.created_at < cleanupCutoff days db →
        s ∈ (cleanup_old_sessions days db).sessions ∧
          (cleanup_old_sessions days db).messages.filter
              (fun m => m.session_id = s.id) =
            db.messages.filter (fun m => m.session_id = s.id) := by
  constructor
  · intro s hs hold
    constructor
    · intro s' hs' heq
      have hmem' := (List.mem_filter.mp hs').1
      have hkeep := (List.mem_filter.mp hs').2
      have : s' = s := List.inj_on_of_nodup_map hnd hmem' hs heq
      rw [this] at hkeep
      simp [hold] at hkeep
    · intro m hm heq
      have hkeep := (List.mem_filter.mp hm).2
      simp only [decide_eq_true_eq] at hkeep
      refine hkeep ?_
      rw [heq]
      unfold oldSessionIds
      exact List.mem_map_of_mem _ (List.mem_filter.mpr ⟨hs, by simpa using hold⟩)
  · intro s hs hnew
    constructor
    · exact List.mem_filter.mpr ⟨hs, by simpa using hnew⟩
    · unfold cleanup_old_sessions
      refine filter_of_filter_sub _ _ _ ?_
      intro m _ hmid
      simp only [decide_eq_true_eq] at hmid ⊢
      intro hin
      unfold oldSessionIds at hin
      obtain ⟨s'', hs''mem, hs''id⟩ := List.mem_map.mp hin
      have hs''db := (List.mem_filter.mp hs''mem).1
      have hs''old := (List.mem_filter.mp hs''mem).2
      have : s'' = s := List.inj_on_of_nodup_map hnd hs''db hs (by rw [hs''id, hmid])
      rw [this] at hs''old
      simp only [decide_eq_true_eq] at hs''old
      exact hnew hs''old

/-- C7 witness: on a store with a 10-day-old session and a fresh one, the
fresh session and its message filter survive a 7-day sweep unchanged. -/
theorem retention_sweep_witness :
    (⟨"new", "New chat", 700000⟩ : SessionRow) ∈
        (cleanup_old_sessions 7 dbRetention).sessions ∧
      (cleanup_old_sessions 7 dbRetention).messages.filter
          (fun m => m.session_id = "new") =
        dbRetention.messages.filter (fun m => m.session_id = "new") :=
  (retention_sweep dbRetention 7 (by decide)).2 ⟨"new", "New chat", 700000⟩
    (by decide) (by decide)

/-- C8. Pipeline grounding invariant (spec-modelled verification stage):
every claim surviving verification is supported by the supplied context, a
draft claim absent from the context does not survive, and the reserved
self-identification answer passes through verification unchanged even though
it is not grounded in the context. -/
theorem pipeline_grounding (draft context : List String)
    (h : draft ≠ [SELF_INTRO_ANSWER]) :
    (∀ cl ∈ verifyAnswer draft context, cl ∈ context) ∧
      (∀ cl ∈ draft, cl ∉ context → cl ∉ verifyAnswer draft context) ∧
      ∀ ctx : List String, verifyAnswer [SELF_INTRO_ANSWER] ctx =
        [SELF_INTRO_ANSWER] := by
  refine ⟨?_, ?_, fun ctx => by unfold verifyAnswer; rw [if_pos rfl]⟩
  · intro cl hcl
    unfold verifyAnswer at hcl
    rw [if_neg h] at hcl
    have := (List.mem_filter.mp hcl).2
    simpa using this
  · intro cl _ hnot hcl
    unfold verifyAnswer at hcl
    rw [if_neg h] at hcl
    exact hnot (by simpa using (List.mem_filter.mp hcl).2)

/-- C8 witness: with context supporting only "X is true", the draft claim
"Y is true" does not survive, while the reserved self-identification answer
passes unchanged. -/
theorem pipeline_grounding_witness :
    "Y is true" ∉ verifyAnswer ["Y is true"] ["X is true"] ∧
      verifyAnswer [SELF_INTRO_ANSWER] ["X is true"] = [SELF_INTRO_ANSWER] := by
  have h := pipeline_grounding ["Y is true"] ["X is true"] (by decide)
  exact ⟨h.2.1 "Y is true" (by decide) (by decide), h.2.2 ["X is true"]⟩

/-- C9 counterexample: the claim describes the shadowed `get_history`
definition as returning one raw entry per message ordered by timestamp, but
on a store holding one message the shadowed definition raises a NameError
for the unbound name `row` — it returns no raw entry at all. -/
theorem shadowed_get_history_returns_no_entries :
    get_history_shadowed "s" dbOneUser =
        Except.error (PyError.nameError "row") ∧
      get_history_shadowed "s" dbOneUser ≠ Except.ok [⟨"q1", "", none, 0⟩] :=
  ⟨rfl, fun h => Except.noConfusion h⟩

/-- C9 amended. The public `get_history` is definitionally equal to
`get_history_formatted`: the earlier `get_history` definition — which raises
a NameError on every call, its returned list literal referencing the unbound
name `row`, rather than returning raw per-message entries — is shadowed by
the class-body assignment of line 146, so every caller of `get_history`
receives paired question/answer turns ordered by the autoincrement message
id, never a result of the shadowed definition. -/
theorem get_history_is_formatted_alias :
    (∀ sid : String, ∀ db : DB, get_history sid db = get_history_formatted sid db) ∧
      get_history "s" dbOneUser = [] ∧
      get_history_shadowed "s" dbOneUser =
        Except.error (PyError.nameError "row") :=
  ⟨fun _ _ => rfl, rfl, rfl⟩

/-- C10. Transactionality of `add_turn`: all four statements run on one
connection with a single commit at the end; if execution stops at any point
before the commit, the durable store is unchanged — in particular a user
message is never persisted without its paired assistant message — and a
completed call persists exactly the effect of the four statements. -/
theorem add_turn_transactional (sid q a : String) (c : Option String) (db : DB) :
    (∀ k : Nat, add_turnFailingAt k sid q a c db = db) ∧
      add_turnCommitted sid q a c db = add_turn sid q a c db := by
  constructor
  · intro k
    unfold add_turnFailingAt closeConn
    rw [foldl_execStmt_persisted]
    rfl
  · show ((add_turnStmts sid q a c).foldl execStmt (openConn db)).pending =
      add_turn sid q a c db
    rw [foldl_execStmt_pending]
    rfl

/-- C5 witness: deleting the only session of a concrete store. -/
theorem deletion_postcondition_witness :
    get_history "s" (delete_session "s" dbOneUser) = [] ∧
      ∀ s ∈ list_sessions (delete_session "s" dbOneUser), s.id ≠ "s" :=
  deletion_postcondition dbOneUser "s"
